import Mathlib

/-!
Verification of the dependency-specification consistency-management subsystem
of this repository (utils/dependency_management.py).

Requirement strings, exclude lists, snapshot lines and classifier strings are
modelled as Lean `String`s (Python `str`).  Python string primitives that the
code uses (`str.lower`, `str.split`, the `in` substring test, `str.strip`,
lexicographic `<`, `sorted`) are embedded as executable functions on the
underlying character lists, so that every definition evaluates by kernel
reduction.
-/

namespace DepMgmt

/-! ### Python string primitives -/

/-- Python `str.lower` on one character: ASCII uppercase letters are shifted
by 32, everything else is returned unchanged. -/
def pyLowerChar (c : Char) : Char :=
  if 65 ≤ c.toNat ∧ c.toNat ≤ 90 then Char.ofNat (c.toNat + 32) else c

/-- Python `str.lower`, applied character-wise. -/
def pyLower (s : String) : String :=
  ⟨s.data.map pyLowerChar⟩

/-- The two-character separator of an equality pin. -/
def eqeqL : List Char := ['=', '=']

/-- Bool test that `pat` is a prefix of `l` (used for `re.match` with a
literal pattern, and as the step of the substring test). -/
def isPreL : List Char → List Char → Bool
  | [], _ => true
  | _ :: _, [] => false
  | p :: ps, c :: cs => if p = c then isPreL ps cs else false

/-- Python `pat in s` (substring containment) on character lists. -/
def hasSubL (pat : List Char) : List Char → Bool
  | [] => pat.isEmpty
  | c :: rest => isPreL pat (c :: rest) || hasSubL pat rest

/-- Python `';' in s`. -/
def hasSemi (s : String) : Bool := s.data.contains ';'

/-- Python substring test for containing the equality-pin separator, i.e.
the double-equals-in-string test used throughout the rewriter. -/
def hasEqEq (s : String) : Bool := hasSubL eqeqL s.data

/-- One step of `splitEqEqL`: prepend a character to the first chunk. -/
def consHead (c : Char) : List (List Char) → List (List Char)
  | [] => [[c]]
  | h :: t => (c :: h) :: t

/-- Python `s.split` at the double-equals separator, on character lists. -/
def splitEqEqL : List Char → List (List Char)
  | [] => [[]]
  | '=' :: '=' :: rest => [] :: splitEqEqL rest
  | c :: rest => consHead c (splitEqEqL rest)

/-- Python `s.split` at the double-equals separator, on strings. -/
def pySplitEqEq (s : String) : List String :=
  (splitEqEqL s.data).map (fun l => ⟨l⟩)

/-- Python whitespace characters recognised by `str.strip`. -/
def pyIsSpace (c : Char) : Bool :=
  c = ' ' ∨ c = '\t' ∨ c = '\n' ∨ c = '\r' ∨ c = Char.ofNat 11 ∨ c = Char.ofNat 12

/-- Python `str.strip`: drop whitespace from both ends. -/
def pyStrip (s : String) : String :=
  ⟨((s.data.dropWhile pyIsSpace).reverse.dropWhile pyIsSpace).reverse⟩

/-- Python `a < b` on strings restricted to one character position:
comparison of code points. -/
def ltListB : List Char → List Char → Bool
  | _, [] => false
  | [], _ :: _ => true
  | a :: as, b :: bs =>
    if a.toNat < b.toNat then true
    else if b.toNat < a.toNat then false
    else ltListB as bs

/-- Python `a < b` on strings: lexicographic comparison by code points. -/
def pyLtB (a b : String) : Bool := ltListB a.data b.data

/-- Python `a <= b` on strings, as a relation usable for sorting. -/
def pyLe (a b : String) : Prop := pyLtB b a = false

instance : DecidableRel pyLe := fun a b =>
  inferInstanceAs (Decidable (pyLtB b a = false))

/-- Python `sorted` applied to a `set` of strings: sort the deduplicated
elements lexicographically. -/
def pySortedSet (l : List String) : List String :=
  List.insertionSort pyLe l.dedup

/-! ### The primary manifest (setup.json)

Only the two keys the rewriter touches are modelled: the mandatory
`install_requires` list and the `extras_require` mapping (an association
list, since insertion order of groups is preserved). -/

structure SetupJson where
  install_requires : List String
  extras_require : List (String × List String)
deriving DecidableEq

/-! ### unrestrict (lines 277-312 of utils/dependency_management.py) -/

/-- The built-in exclude list `DEFAULT_EXCLUDE_LIST` of the source. -/
def DEFAULT_EXCLUDE_LIST : List String :=
  ["django", "circus", "numpy", "pymatgen", "ase", "monty", "pyyaml"]

/-- The effective exclude value the Python code computes.  For a non-empty
caller list the code runs the line that rebinds `exclude` to the result of
calling list-extend on a fresh list; list-extend mutates in place and
returns the Python `None` value, so the rebinding yields `none` here.  For
an empty caller list the built-in default list is used. -/
def effectiveExclude (exclude : List String) : Option (List String) :=
  if exclude.isEmpty then some DEFAULT_EXCLUDE_LIST else none

/-- The per-requirement step of `unrestrict_requirements`: keep the raw
requirement string when it is itself a member of the exclude list, carries a
semicolon (environment marker), or has no equality pin; otherwise keep only
the part before the first double-equals separator. -/
def unrestrictReq (ex : List String) (r : String) : String :=
  if r ∈ ex ∨ hasSemi r = true ∨ hasEqEq r = false then r
  else (pySplitEqEq r).headD r

/-- One requirement group of `unrestrict_requirements`.  When the effective
exclude value is `none`, the first loop iteration performs a membership test
against Python `None` and raises `TypeError`; an empty group raises
nothing. -/
def unrestrictListE (excl : Option (List String)) : List String → Except Unit (List String)
  | [] => Except.ok []
  | r :: rest =>
    match excl with
    | none => Except.error ()
    | some ex =>
      match unrestrictListE (some ex) rest with
      | Except.error e => Except.error e
      | Except.ok out => Except.ok (unrestrictReq ex r :: out)

/-- The `extras_require` loop of `unrestrict_requirements`. -/
def unrestrictExtrasE (excl : Option (List String)) :
    List (String × List String) → Except Unit (List (String × List String))
  | [] => Except.ok []
  | g :: gs =>
    match unrestrictListE excl g.2 with
    | Except.error e => Except.error e
    | Except.ok out =>
      match unrestrictExtrasE excl gs with
      | Except.error e => Except.error e
      | Except.ok outs => Except.ok ((g.1, out) :: outs)

/-- `unrestrict_requirements`: remove explicit version restrictions from the
manifest, except for excluded names, marked requirements and requirements
that are not a plain equality pin. -/
def unrestrict_requirements (exclude : List String) (setup : SetupJson) :
    Except Unit SetupJson :=
  match unrestrictListE (effectiveExclude exclude) setup.install_requires with
  | Except.error e => Except.error e
  | Except.ok inst =>
    match unrestrictExtrasE (effectiveExclude exclude) setup.extras_require with
    | Except.error e => Except.error e
    | Except.ok extras => Except.ok ⟨inst, extras⟩

/-- The package-name part of a raw requirement string: the text before the
first double-equals separator (the whole string when there is none). -/
def reqName (r : String) : String := (pySplitEqEq r).headD r

/-! ### update (lines 315-358 of utils/dependency_management.py) -/

/-- One line of the snapshot (`pip freeze` output): strip it and split at the
double-equals separator; keep the line only when that yields exactly one
package-version pair, mirroring the tuple unpacking whose `ValueError` the
code catches and turns into `continue`. -/
def parseFreezeLine (line : String) : Option (String × String) :=
  match splitEqEqL (pyStrip line).data with
  | [p, v] => some (⟨p⟩, ⟨v⟩)
  | _ => none

/-- The per-requirement step of `update_requirements`: scan the snapshot
pairs in order for one whose package name equals the whole requirement
string case-insensitively; on the first hit produce the lower-cased package
name pinned at the snapshot version, otherwise keep the requirement. -/
def updateReq (pvs : List (String × String)) (r : String) : String :=
  match pvs.find? (fun pv => decide (pyLower r = pyLower pv.1)) with
  | some pv => pyLower pv.1 ++ "==" ++ pv.2
  | none => r

/-- One requirement group of `update_requirements`: rewrite every
requirement, collect the results into a set, and write back the sorted
set. -/
def updateGroup (pvs : List (String × String)) (reqs : List String) : List String :=
  pySortedSet (reqs.map (updateReq pvs))

/-- `update_requirements`: apply the version pins of the snapshot file to
every group of the manifest. -/
def update_requirements (freezeLines : List String) (setup : SetupJson) : SetupJson :=
  let pvs := freezeLines.filterMap parseFreezeLine
  ⟨updateGroup pvs setup.install_requires,
   setup.extras_require.map (fun g => (g.1, updateGroup pvs g.2))⟩

/-! ### validate-environment-yml (lines 139-203) -/

/-- The fixed setuptools-to-conda translation table of the source. -/
def SETUPTOOLS_CONDA_MAPPINGS : List (String × String) :=
  [("psycopg2-binary", "psycopg2"), ("graphviz", "python-graphviz")]

/-- The fixed conda ignore list of the source. -/
def CONDA_IGNORE : List String := ["pyblake2"]

/-- Python `re.match` for the literal patterns of the two tables above:
match the pattern at the start of the string. -/
def reMatchLiteral (pattern s : String) : Bool := isPreL pattern.data s.data

/-- Worker for `reSubLiteral`, structurally recursive on a fuel argument
that the wrapper keeps at least the length of the remaining list (so the
fuel-exhausted branch is unreachable). -/
def reSubAux (pattern repl : List Char) : Nat → List Char → List Char
  | _, [] => []
  | 0, c :: rest => c :: rest
  | n + 1, c :: rest =>
    if isPreL pattern (c :: rest) = true ∧ 0 < pattern.length then
      repl ++ reSubAux pattern repl n (rest.drop (pattern.length - 1))
    else c :: reSubAux pattern repl n rest

/-- Python `re.sub` for a literal pattern: replace every non-overlapping
occurrence, scanning left to right. -/
def reSubLiteral (pattern repl l : List Char) : List Char :=
  reSubAux pattern repl l.length l

/-- `_setuptools_to_conda`: rewrite a requirement through the first matching
pattern of the translation table, or return it unchanged. -/
def setuptoolsToConda (req : String) : String :=
  match SETUPTOOLS_CONDA_MAPPINGS.find? (fun m => reMatchLiteral m.1 req) with
  | some m => ⟨reSubLiteral m.1.data m.2.data req.data⟩
  | none => req

/-- The conda ignore test `any(re.match(ignore, str(req)) ...)`. -/
def condaIgnored (req : String) : Bool :=
  CONDA_IGNORE.any (fun ig => reMatchLiteral ig req)

/-- Outcome of the requirement-pool phase of `validate_environment_yml`.
`joinTypeError` is the outcome of the leftover-pool branch: the source
builds the extra-requirements message by string-joining the remaining pool,
but the pool holds parsed requirement objects, not strings, so the join
raises `TypeError` before the intended exception is even constructed; the
run aborts with that uncaught `TypeError` and reports no remainder. -/
inductive EnvValidation
  | consistent
  | missingRequirement (r : String)
  | joinTypeError
deriving DecidableEq

/-- Lines 183-201 of the source: walk the reference requirements in order,
skipping ignored ones; remove the translated requirement from the candidate
pool, failing on the first one that is absent; afterwards, when the pool is
non-empty, enter the extra-requirements branch, whose message join raises
an uncaught `TypeError` (see `EnvValidation.joinTypeError`). -/
def checkInstallReqs : List String → Finset String → EnvValidation
  | [], pool =>
    if 0 < pool.card then EnvValidation.joinTypeError
    else EnvValidation.consistent
  | r :: rest, pool =>
    if condaIgnored r = true then checkInstallReqs rest pool
    else if setuptoolsToConda r ∈ pool then
      checkInstallReqs rest (pool.erase (setuptoolsToConda r))
    else EnvValidation.missingRequirement r

/-- Outcome of the interpreter phase of `validate_environment_yml`
(lines 167-181).  The first two failure constructors are the two
`ClickException` raises the specification groups under
`InconsistentInterpreterSpec`. -/
inductive InterpreterCheck
  | ok
  | missingClassifier (c : String)
  | inconsistent
  | missingSpecifier
deriving DecidableEq

/-- The expected trove classifier for an interpreter version. -/
def expectedClassifier (v : String) : String :=
  "Programming Language :: Python :: " ++ v

/-- Lines 167-181 of the source: look at the first specifier of the
candidate interpreter requirement; require the matching trove classifier in
the reference manifest, then require the candidate version to compare
greater-or-equal (Python string comparison) against some declared reference
version; the loop breaks after the first specifier, and an empty specifier
set raises the missing-specifier error. -/
def checkInterpreter (classifiers pyReqVersions condaPyVersions : List String) :
    InterpreterCheck :=
  match condaPyVersions with
  | [] => InterpreterCheck.missingSpecifier
  | v :: _ =>
    if expectedClassifier v ∈ classifiers then
      if pyReqVersions.any (fun o => !(pyLtB v o)) then InterpreterCheck.ok
      else InterpreterCheck.inconsistent
    else InterpreterCheck.missingClassifier (expectedClassifier v)

/-! ### validate-rtd-reqs (lines 206-224) -/

/-- The combined requirement set of the primary manifest: the mandatory
group plus the fixed extras groups testing, docs, rest and atomic-tools. -/
def rtdCombined (install testing docs rest atomicTools : List String) : Finset String :=
  install.toFinset ∪ testing.toFinset ∪ docs.toFinset ∪ rest.toFinset ∪
    atomicTools.toFinset

/-- `validate_rtd_reqs`: plain set equality between the flat documentation
list and the combined manifest set, reported through a bare assertion whose
error carries no message. -/
def validate_rtd_reqs (install testing docs rest atomicTools rtdLines : List String) :
    Except String Unit :=
  if rtdLines.toFinset = rtdCombined install testing docs rest atomicTools then
    Except.ok ()
  else Except.error ""

/-! ### Helper lemmas: strings and characters -/

theorem str_data_append (a b : String) : (a ++ b).data = a.data ++ b.data := by
  cases a
  cases b
  rfl

theorem str_data_inj {a b : String} (h : a.data = b.data) : a = b := by
  cases a
  cases b
  exact congrArg String.mk h

theorem char_ofNat_shift {n : Nat} (h1 : 65 ≤ n) (h2 : n ≤ 90) :
    (Char.ofNat (n + 32)).toNat = n + 32 := by
  interval_cases n <;> decide

theorem pyLowerChar_eq_eq {c : Char} (h : pyLowerChar c = '=') : c = '=' := by
  unfold pyLowerChar at h
  split_ifs at h with hc
  · have := congrArg Char.toNat h
    rw [char_ofNat_shift hc.1 hc.2] at this
    simp only [show ('=').toNat = 61 from rfl] at this
    omega
  · exact h

/-! ### Helper lemmas: the lexicographic order -/

theorem ltListB_nil_right : ∀ (a : List Char), ltListB a [] = false
  | [] => rfl
  | _ :: _ => rfl

theorem ltListB_asymm : ∀ {a b : List Char}, ltListB a b = true → ltListB b a = false
  | a, [], h => by rw [ltListB_nil_right] at h; exact Bool.noConfusion h
  | [], _ :: _, _ => ltListB_nil_right _
  | a :: as, b :: bs, h => by
    simp only [ltListB] at h ⊢
    by_cases h1 : a.toNat < b.toNat
    · rw [if_neg (by omega : ¬ b.toNat < a.toNat), if_pos h1]
    · by_cases h2 : b.toNat < a.toNat
      · rw [if_neg h1, if_pos h2] at h
        exact Bool.noConfusion h
      · rw [if_neg h1, if_neg h2] at h
        rw [if_neg h2, if_neg h1]
        exact ltListB_asymm h

theorem ltListB_neg_trans :
    ∀ {a b c : List Char}, ltListB b a = false → ltListB c b = false → ltListB c a = false
  | [], _, c, _, _ => ltListB_nil_right c
  | _ :: _, [], _, hba, _ => Bool.noConfusion hba
  | _ :: _, _ :: _, [], _, hcb => Bool.noConfusion hcb
  | a :: as, b :: bs, c :: cs, hba, hcb => by
    simp only [ltListB] at hba hcb ⊢
    by_cases h1 : b.toNat < a.toNat
    · rw [if_pos h1] at hba
      exact Bool.noConfusion hba
    · by_cases h2 : c.toNat < b.toNat
      · rw [if_pos h2] at hcb
        exact Bool.noConfusion hcb
      · by_cases h3 : c.toNat < a.toNat
        · omega
        · by_cases h4 : a.toNat < c.toNat
          · rw [if_neg h3, if_pos h4]
          · rw [if_neg h1, if_neg (by omega : ¬ a.toNat < b.toNat)] at hba
            rw [if_neg h2, if_neg (by omega : ¬ b.toNat < c.toNat)] at hcb
            rw [if_neg h3, if_neg h4]
            exact ltListB_neg_trans hba hcb

instance : IsTotal String pyLe where
  total a b := by
    unfold pyLe pyLtB
    rcases h : ltListB b.data a.data with _ | _
    · exact Or.inl rfl
    · exact Or.inr (ltListB_asymm h)

instance : IsTrans String pyLe where
  trans _ _ _ hab hbc := ltListB_neg_trans hab hbc

theorem pySortedSet_sorted (l : List String) : List.Sorted pyLe (pySortedSet l) :=
  List.sorted_insertionSort pyLe l.dedup

theorem mem_pySortedSet {x : String} {l : List String} :
    x ∈ pySortedSet l ↔ x ∈ l := by
  unfold pySortedSet
  rw [List.mem_insertionSort, List.mem_dedup]

theorem pySortedSet_nodup (l : List String) : (pySortedSet l).Nodup :=
  (List.perm_insertionSort pyLe l.dedup).symm.nodup (List.nodup_dedup l)

theorem pySortedSet_of_sorted {l : List String} (hs : List.Sorted pyLe l)
    (hn : l.Nodup) : pySortedSet l = l := by
  unfold pySortedSet
  rw [List.dedup_eq_self.mpr hn]
  exact hs.insertionSort_eq

theorem pySortedSet_idem (l : List String) :
    pySortedSet (pySortedSet l) = pySortedSet l :=
  pySortedSet_of_sorted (pySortedSet_sorted l) (pySortedSet_nodup l)

/-! ### Helper lemmas: substring containment and splitting -/

theorem hasSubL_append_eqeq :
    ∀ (a b : List Char), hasSubL eqeqL (a ++ '=' :: '=' :: b) = true
  | [], b => by simp [hasSubL, isPreL, eqeqL]
  | c :: a, b => by
    simp only [List.cons_append, hasSubL, List.append_eq]
    rw [hasSubL_append_eqeq a b]
    simp

theorem isPreL_eqeq_map_lower :
    ∀ {l : List Char}, isPreL eqeqL l = false → isPreL eqeqL (l.map pyLowerChar) = false
  | [], h => h
  | [c], _ => by
    simp only [List.map_cons, List.map_nil, eqeqL, isPreL]
    split <;> rfl
  | c :: d :: rest, h => by
    simp only [eqeqL, isPreL, List.map_cons] at h ⊢
    by_cases hc : ('=' : Char) = pyLowerChar c
    · have hc2 : c = '=' := pyLowerChar_eq_eq hc.symm
      subst hc2
      rw [if_pos rfl] at h
      rw [if_pos hc]
      by_cases hd : ('=' : Char) = pyLowerChar d
      · have hd2 : d = '=' := pyLowerChar_eq_eq hd.symm
        subst hd2
        rw [if_pos rfl] at h
        exact Bool.noConfusion h
      · rw [if_neg hd]
    · rw [if_neg hc]

theorem hasSubL_eqeq_map_lower :
    ∀ {l : List Char}, hasSubL eqeqL l = false →
      hasSubL eqeqL (l.map pyLowerChar) = false
  | [], h => h
  | c :: rest, h => by
    simp only [hasSubL, Bool.or_eq_false_iff] at h
    simp only [List.map_cons, hasSubL, Bool.or_eq_false_iff]
    exact ⟨isPreL_eqeq_map_lower h.1, hasSubL_eqeq_map_lower h.2⟩

theorem consHead_ne_nil (c : Char) : ∀ (l : List (List Char)), consHead c l ≠ []
  | [] => by simp [consHead]
  | h :: t => by simp [consHead]

theorem splitEqEqL_ne_nil (l : List Char) : splitEqEqL l ≠ [] := by
  rw [splitEqEqL.eq_def]
  split
  · simp
  · simp
  · exact consHead_ne_nil _ _

theorem splitEqEqL_cons_guard (c : Char) (rest : List Char)
    (hg : ∀ r2, c = '=' → rest = '=' :: r2 → False) :
    splitEqEqL (c :: rest) = consHead c (splitEqEqL rest) := by
  rw [splitEqEqL.eq_def]
  split
  · rename_i heq
    exact List.noConfusion heq
  · rename_i r2 heq
    obtain ⟨hc, hrest⟩ := List.cons.inj heq
    exact absurd trivial (fun _ => hg r2 hc hrest)
  · rename_i c2 rest2 hguard heq
    obtain ⟨hc, hrest⟩ := List.cons.inj heq
    rw [hc, hrest]

theorem splitEqEqL_head_shape (l : List Char) (h : List Char) (t : List (List Char))
    (hht : splitEqEqL l = h :: t) :
    h = [] ∨ ∃ d r2 h2, l = d :: r2 ∧ h = d :: h2 := by
  rw [splitEqEqL.eq_def] at hht
  revert hht
  split
  · intro hht
    obtain ⟨hh, _⟩ := List.cons.inj hht
    exact Or.inl hh.symm
  · intro hht
    obtain ⟨hh, _⟩ := List.cons.inj hht
    exact Or.inl hh.symm
  · rename_i c rest hguard
    intro hht
    obtain ⟨h0, t0, hsp⟩ : ∃ h0 t0, splitEqEqL rest = h0 :: t0 := by
      cases hs : splitEqEqL rest with
      | nil => exact absurd hs (splitEqEqL_ne_nil rest)
      | cons a b => exact ⟨a, b, rfl⟩
    rw [hsp] at hht
    simp only [consHead] at hht
    obtain ⟨hh, _⟩ := List.cons.inj hht
    exact Or.inr ⟨c, rest, h0, rfl, hh.symm⟩

theorem splitEqEqL_parts (l : List Char) :
    ∀ p ∈ splitEqEqL l, hasSubL eqeqL p = false := by
  induction l using splitEqEqL.induct with
  | case1 => intro p hp; simp [splitEqEqL] at hp; subst hp; rfl
  | case2 rest ih =>
    intro p hp
    simp only [splitEqEqL, List.mem_cons] at hp
    rcases hp with h | h
    · subst h; rfl
    · exact ih p h
  | case3 c rest h1 ih =>
    intro p hp
    rw [splitEqEqL_cons_guard c rest h1] at hp
    obtain ⟨h0, t0, hsp⟩ : ∃ h0 t0, splitEqEqL rest = h0 :: t0 := by
      cases hs : splitEqEqL rest with
      | nil => exact absurd hs (splitEqEqL_ne_nil rest)
      | cons a b => exact ⟨a, b, rfl⟩
    rw [hsp] at hp
    simp only [consHead, List.mem_cons] at hp
    rcases hp with rfl | hmem
    · have hh0 : hasSubL eqeqL h0 = false := by
        refine ih h0 ?_
        rw [hsp]
        exact List.mem_cons_self _ _
      simp only [hasSubL, Bool.or_eq_false_iff]
      refine ⟨?_, hh0⟩
      by_cases hc : c = '='
      · subst hc
        rcases splitEqEqL_head_shape rest h0 t0 hsp with rfl | ⟨d, r2, h2, hrest, hh⟩
        · rfl
        · subst hh
          have hd : ('=' : Char) ≠ d := by
            intro hd
            exact h1 r2 rfl (by rw [hrest, ← hd])
          simp [eqeqL, isPreL, hd]
      · simp only [eqeqL, isPreL, if_neg (Ne.symm hc)]
    · refine ih p ?_
      rw [hsp]
      exact List.mem_cons_of_mem _ hmem

/-! ### Helper lemmas: update -/

theorem parseFreezeLine_no_eqeq {line : String} {pv : String × String}
    (h : parseFreezeLine line = some pv) : hasSubL eqeqL pv.1.data = false := by
  unfold parseFreezeLine at h
  revert h
  split
  · rename_i p v heq
    intro h
    obtain rfl := (Option.some.inj h).symm
    refine splitEqEqL_parts ((pyStrip line).data) p ?_
    rw [heq]
    exact List.mem_cons_self _ _
  · intro h
    exact Option.noConfusion h

theorem updateReq_eq_of_no_match {pvs : List (String × String)} {r : String}
    (h : ∀ pv ∈ pvs, pyLower r ≠ pyLower pv.1) : updateReq pvs r = r := by
  unfold updateReq
  rw [List.find?_eq_none.mpr ?_]
  intro pv hpv
  simp only [decide_eq_true_eq]
  exact h pv hpv

theorem pin_data_lower (q v : String) :
    (pyLower (pyLower q ++ "==" ++ v)).data
      = ((pyLower q).data.map pyLowerChar) ++ '=' :: '=' :: (v.data.map pyLowerChar) := by
  show ((pyLower q ++ "==" ++ v).data).map pyLowerChar = _
  rw [str_data_append, str_data_append]
  rw [List.map_append, List.map_append]
  rw [List.append_assoc]
  rfl

theorem hasSubL_pin (q v : String) :
    hasSubL eqeqL (pyLower (pyLower q ++ "==" ++ v)).data = true := by
  rw [pin_data_lower]
  exact hasSubL_append_eqeq _ _

theorem updateReq_pin_fixed (pvs : List (String × String))
    (hpvs : ∀ pv ∈ pvs, hasSubL eqeqL pv.1.data = false) (q v : String) :
    updateReq pvs (pyLower q ++ "==" ++ v) = pyLower q ++ "==" ++ v := by
  refine updateReq_eq_of_no_match (fun pv hpv heq => ?_)
  have h1 : hasSubL eqeqL (pyLower (pyLower q ++ "==" ++ v)).data = true :=
    hasSubL_pin q v
  have h2 : hasSubL eqeqL (pyLower pv.1).data = false :=
    hasSubL_eqeq_map_lower (hpvs pv hpv)
  rw [heq, h2] at h1
  exact Bool.noConfusion h1

theorem updateReq_idem (pvs : List (String × String))
    (hpvs : ∀ pv ∈ pvs, hasSubL eqeqL pv.1.data = false) (r : String) :
    updateReq pvs (updateReq pvs r) = updateReq pvs r := by
  cases hf : pvs.find? (fun pv => decide (pyLower r = pyLower pv.1)) with
  | none =>
    have hr : updateReq pvs r = r := by unfold updateReq; rw [hf]
    rw [hr, hr]
  | some pv =>
    have hr : updateReq pvs r = pyLower pv.1 ++ "==" ++ pv.2 := by
      unfold updateReq
      rw [hf]
    rw [hr]
    exact updateReq_pin_fixed pvs hpvs pv.1 pv.2

theorem updateGroup_idem (pvs : List (String × String))
    (hpvs : ∀ pv ∈ pvs, hasSubL eqeqL pv.1.data = false) (reqs : List String) :
    updateGroup pvs (updateGroup pvs reqs) = updateGroup pvs reqs := by
  unfold updateGroup
  have hfix : ∀ x ∈ pySortedSet (reqs.map (updateReq pvs)), updateReq pvs x = x := by
    intro x hx
    obtain ⟨a, _, rfl⟩ := List.mem_map.mp (mem_pySortedSet.mp hx)
    exact updateReq_idem pvs hpvs a
  rw [show (pySortedSet (reqs.map (updateReq pvs))).map (updateReq pvs)
        = pySortedSet (reqs.map (updateReq pvs)) by
      rw [List.map_congr_left hfix]
      exact List.map_id _]
  exact pySortedSet_idem _

theorem freeze_pvs_no_eqeq (freezeLines : List String) :
    ∀ pv ∈ freezeLines.filterMap parseFreezeLine, hasSubL eqeqL pv.1.data = false := by
  intro pv hpv
  obtain ⟨line, _, hline⟩ := List.mem_filterMap.mp hpv
  exact parseFreezeLine_no_eqeq hline

/-! ### Helper lemmas: unrestrict -/

theorem unrestrictListE_some (ex : List String) :
    ∀ l : List String, unrestrictListE (some ex) l = Except.ok (l.map (unrestrictReq ex))
  | [] => rfl
  | r :: rest => by
    simp only [unrestrictListE, List.map_cons]
    rw [unrestrictListE_some ex rest]

theorem unrestrictExtrasE_some (ex : List String) :
    ∀ gs : List (String × List String),
      unrestrictExtrasE (some ex) gs
        = Except.ok (gs.map (fun g => (g.1, g.2.map (unrestrictReq ex))))
  | [] => rfl
  | g :: gs => by
    simp only [unrestrictExtrasE, List.map_cons]
    rw [unrestrictListE_some ex g.2, unrestrictExtrasE_some ex gs]

theorem unrestrictListE_none_ok {l out : List String}
    (h : unrestrictListE none l = Except.ok out) : l = [] ∧ out = [] := by
  cases l with
  | nil => exact ⟨rfl, (Except.ok.inj h).symm⟩
  | cons r rest => exact Except.noConfusion h

theorem unrestrictExtrasE_none_ok :
    ∀ {gs out : List (String × List String)},
      unrestrictExtrasE none gs = Except.ok out → ∀ g ∈ out, g.2 = []
  | [], out, h => by
    obtain rfl := (Except.ok.inj h).symm
    simp
  | g0 :: gs, out, h => by
    intro g hg
    simp only [unrestrictExtrasE] at h
    cases hl : unrestrictListE none g0.2 with
    | error e => rw [hl] at h; exact Except.noConfusion h
    | ok out0 =>
      rw [hl] at h
      cases hr : unrestrictExtrasE none gs with
      | error e => rw [hr] at h; exact Except.noConfusion h
      | ok outs =>
        rw [hr] at h
        obtain rfl := (Except.ok.inj h).symm
        rcases List.mem_cons.mp hg with rfl | hg2
        · exact (unrestrictListE_none_ok hl).2
        · exact unrestrictExtrasE_none_ok hr g hg2

theorem effectiveExclude_some {exclude ex : List String}
    (hex : effectiveExclude exclude = some ex) : ex = DEFAULT_EXCLUDE_LIST := by
  unfold effectiveExclude at hex
  split_ifs at hex
  exact (Option.some.inj hex).symm

theorem unrestrict_ok_inversion {exclude : List String} {setup out : SetupJson}
    (h : unrestrict_requirements exclude setup = Except.ok out) :
    (out = ⟨setup.install_requires.map (unrestrictReq DEFAULT_EXCLUDE_LIST),
            setup.extras_require.map
              (fun g => (g.1, g.2.map (unrestrictReq DEFAULT_EXCLUDE_LIST)))⟩)
    ∨ (out.install_requires = [] ∧ ∀ g ∈ out.extras_require, g.2 = []) := by
  unfold unrestrict_requirements at h
  cases hex : effectiveExclude exclude with
  | some ex =>
    obtain rfl := effectiveExclude_some hex
    rw [hex, unrestrictListE_some, unrestrictExtrasE_some] at h
    exact Or.inl (Except.ok.inj h).symm
  | none =>
    rw [hex] at h
    cases hinst : unrestrictListE none setup.install_requires with
    | error e => rw [hinst] at h; exact Except.noConfusion h
    | ok inst =>
      rw [hinst] at h
      cases hextra : unrestrictExtrasE none setup.extras_require with
      | error e => rw [hextra] at h; exact Except.noConfusion h
      | ok outs =>
        rw [hextra] at h
        obtain rfl := (Except.ok.inj h).symm
        exact Or.inr ⟨(unrestrictListE_none_ok hinst).2, unrestrictExtrasE_none_ok hextra⟩

theorem DEFAULT_no_eqeq : ∀ e ∈ DEFAULT_EXCLUDE_LIST, hasEqEq e = false := by decide

theorem unrestrictReq_no_pin {ex : List String} (hex : ∀ e ∈ ex, hasEqEq e = false)
    (r : String) (hsemi : hasSemi (unrestrictReq ex r) = false) :
    hasEqEq (unrestrictReq ex r) = false := by
  unfold unrestrictReq at hsemi ⊢
  by_cases hcond : r ∈ ex ∨ hasSemi r = true ∨ hasEqEq r = false
  · rw [if_pos hcond] at hsemi ⊢
    rcases hcond with hmem | hs | hne
    · exact hex r hmem
    · rw [hs] at hsemi; exact Bool.noConfusion hsemi
    · exact hne
  · rw [if_neg hcond]
    obtain ⟨h0, t0, hsp⟩ : ∃ h0 t0, splitEqEqL r.data = h0 :: t0 := by
      cases hs : splitEqEqL r.data with
      | nil => exact absurd hs (splitEqEqL_ne_nil r.data)
      | cons a b => exact ⟨a, b, rfl⟩
    unfold pySplitEqEq
    rw [hsp]
    show hasSubL eqeqL h0 = false
    refine splitEqEqL_parts r.data h0 ?_
    rw [hsp]
    exact List.mem_cons_self _ _

/-! ### Helper lemmas: the environment-descriptor validator -/

theorem checkInstall_mem :
    ∀ {reqs : List String} {pool : Finset String},
      checkInstallReqs reqs pool = EnvValidation.consistent →
        ∀ r ∈ reqs, condaIgnored r = false → setuptoolsToConda r ∈ pool := by
  intro reqs
  induction reqs with
  | nil => intro pool _ r hr; exact absurd hr (List.not_mem_nil r)
  | cons r0 rest ih =>
    intro pool h r hr hig
    simp only [checkInstallReqs] at h
    split_ifs at h with h1 h2
    · rcases List.mem_cons.mp hr with rfl | hr2
      · rw [h1] at hig; exact Bool.noConfusion hig
      · exact ih h r hr2 hig
    · rcases List.mem_cons.mp hr with rfl | hr2
      · exact h2
      · exact Finset.mem_of_mem_erase (ih h r hr2 hig)

theorem checkInstall_erase :
    ∀ {reqs : List String} {pool : Finset String},
      checkInstallReqs reqs pool = EnvValidation.consistent →
        ∀ r ∈ reqs, condaIgnored r = false →
          checkInstallReqs reqs (pool.erase (setuptoolsToConda r))
            = EnvValidation.missingRequirement r := by
  intro reqs
  induction reqs with
  | nil => intro pool _ r hr; exact absurd hr (List.not_mem_nil r)
  | cons r0 rest ih =>
    intro pool h r hr hig
    simp only [checkInstallReqs] at h
    split_ifs at h with h1 h2
    · rcases List.mem_cons.mp hr with rfl | hr2
      · rw [h1] at hig; exact Bool.noConfusion hig
      · simp only [checkInstallReqs]
        rw [if_pos h1]
        exact ih h r hr2 hig
    · rcases List.mem_cons.mp hr with rfl | hr2
      · simp only [checkInstallReqs]
        rw [if_neg h1, if_neg (Finset.not_mem_erase _ _)]
      · have htr : setuptoolsToConda r ∈ pool.erase (setuptoolsToConda r0) :=
          checkInstall_mem h r hr2 hig
        have hne : setuptoolsToConda r ≠ setuptoolsToConda r0 :=
          (Finset.mem_erase.mp htr).1
        simp only [checkInstallReqs]
        rw [if_neg h1,
          if_pos (Finset.mem_erase.mpr ⟨Ne.symm hne, h2⟩),
          Finset.erase_right_comm]
        exact ih h r hr2 hig

theorem checkInstall_insert :
    ∀ {reqs : List String} {pool : Finset String},
      checkInstallReqs reqs pool = EnvValidation.consistent →
        ∀ x, x ∉ pool →
          checkInstallReqs reqs (insert x pool)
            = EnvValidation.joinTypeError := by
  intro reqs
  induction reqs with
  | nil =>
    intro pool h x hx
    simp only [checkInstallReqs] at h ⊢
    split_ifs at h with hc
    have hpool : pool = ∅ := Finset.card_eq_zero.mp (by omega)
    subst hpool
    rw [if_pos (by simp [Finset.card_insert_of_not_mem hx])]
  | cons r0 rest ih =>
    intro pool h x hx
    simp only [checkInstallReqs] at h ⊢
    split_ifs at h with h1 h2
    · rw [if_pos h1]
      exact ih h x hx
    · have hne : x ≠ setuptoolsToConda r0 := fun he => hx (he ▸ h2)
      rw [if_neg h1, if_pos (Finset.mem_insert_of_mem h2),
        Finset.erase_insert_of_ne hne]
      exact ih h x (fun hmem => hx (Finset.mem_of_mem_erase hmem))

/-! ### Two more substring facts -/

theorem hasSubL_eqeq_decomp :
    ∀ {l : List Char}, hasSubL eqeqL l = true → ∃ a b, l = a ++ '=' :: '=' :: b
  | [], h => Bool.noConfusion h
  | c :: rest, h => by
    simp only [hasSubL, Bool.or_eq_true] at h
    rcases h with hpre | hsub
    · cases rest with
      | nil => simp [eqeqL, isPreL] at hpre
      | cons d rest2 =>
        simp only [eqeqL, isPreL] at hpre
        split_ifs at hpre with hc hd
        exact ⟨[], rest2, by rw [← hc, ← hd]; rfl⟩
    · obtain ⟨a, b, rfl⟩ := hasSubL_eqeq_decomp hsub
      exact ⟨c :: a, b, rfl⟩

theorem hasSubL_eqeq_map_lower_true {l : List Char} (h : hasSubL eqeqL l = true) :
    hasSubL eqeqL (l.map pyLowerChar) = true := by
  obtain ⟨a, b, rfl⟩ := hasSubL_eqeq_decomp h
  have heq : ('=' :: '=' :: b).map pyLowerChar = '=' :: '=' :: b.map pyLowerChar := by
    simp only [List.map_cons]
    rw [show pyLowerChar '=' = '=' from by decide]
  rw [List.map_append, heq]
  exact hasSubL_append_eqeq _ _

/-! ### Claim theorems -/

/-- C1 (code bug): the claim says a non-empty caller exclude list E makes the
rewrite run with the union of E and the built-in default list, leaving names
of E unchanged.  On the code, the rebinding of the exclude variable calls
list-extend, which mutates in place and returns None, so the effective
exclude value is None (not the union) and the rewrite raises TypeError on
the first membership test instead of running. -/
theorem unrestrict_exclude_extend_bug :
    effectiveExclude ["six"] = none ∧
    effectiveExclude ["six"] ≠ some (["six"] ++ DEFAULT_EXCLUDE_LIST) ∧
    unrestrict_requirements ["six"] ⟨["numpy==1.17.4"], []⟩ = Except.error () :=
  ⟨rfl, by decide, rfl⟩

/-- C2 (code bug): the claim says a requirement whose name is in the exclude
set is left unchanged, so unrestrict with exclude [six] keeps six==1.12.0,
while an empty caller exclude reduces it to the bare name six.  On the code
the first part fails: a non-empty exclude option makes the rewrite raise
TypeError (the exclude variable has become None), so six==1.12.0 is not kept;
the empty-exclude half behaves as claimed. -/
theorem unrestrict_exclude_pinned_bug :
    unrestrict_requirements ["six"] ⟨["six==1.12.0"], []⟩ = Except.error () ∧
    unrestrict_requirements [] ⟨["six==1.12.0"], []⟩ = Except.ok ⟨["six"], []⟩ :=
  ⟨rfl, rfl⟩

/-- C3 counterexample: the claim predicts that a manifest entry six==1.12.0
with snapshot entry six==1.16.0 is rewritten to six==1.16.0.  The code
compares the snapshot package name against the whole requirement string, so
the pinned entry matches nothing and is left unchanged. -/
theorem update_pinned_counterexample :
    update_requirements ["six==1.16.0"] ⟨["six==1.12.0"], []⟩ = ⟨["six==1.12.0"], []⟩ ∧
    update_requirements ["six==1.16.0"] ⟨["six==1.12.0"], []⟩ ≠ ⟨["six==1.16.0"], []⟩ :=
  ⟨rfl, by decide⟩

/-- C3 amended: update matches a snapshot entry against the whole requirement
string (lower-cased), not against the requirement name.  Hence any
requirement that contains an equality pin is left unchanged by update, and a
bare name equal to a snapshot package name case-insensitively is replaced by
the lower-cased pinned form, as in the bare-six example. -/
theorem update_pins_only_bare_names (freezeLines : List String) (r : String)
    (h : hasEqEq r = true) :
    updateReq (freezeLines.filterMap parseFreezeLine) r = r ∧
    update_requirements ["six==1.16.0"] ⟨["six"], []⟩ = ⟨["six==1.16.0"], []⟩ := by
  constructor
  · refine updateReq_eq_of_no_match ?_
    intro pv hpv heq
    have h2 : hasSubL eqeqL (pyLower pv.1).data = false :=
      hasSubL_eqeq_map_lower (freeze_pvs_no_eqeq freezeLines pv hpv)
    have h1 : hasSubL eqeqL (pyLower r).data = true := hasSubL_eqeq_map_lower_true h
    rw [heq, h2] at h1
    exact Bool.noConfusion h1
  · rfl

/-- Witness for the amended C3 theorem at a concrete pinned input. -/
theorem update_pins_only_bare_names_witness :
    hasEqEq ("six==1.12.0") = true ∧
    updateReq ((["six==1.16.0"]).filterMap parseFreezeLine) ("six==1.12.0")
      = ("six==1.12.0") :=
  ⟨by decide,
    (update_pins_only_bare_names ["six==1.16.0"] ("six==1.12.0") (by decide)).1⟩

/-- C4: update is idempotent for a fixed snapshot: applying it twice yields
the same manifest as applying it once, in the mandatory group and in every
extras group. -/
theorem update_idempotent (freezeLines : List String) (setup : SetupJson) :
    update_requirements freezeLines (update_requirements freezeLines setup)
      = update_requirements freezeLines setup := by
  have hpvs := freeze_pvs_no_eqeq freezeLines
  simp only [update_requirements, SetupJson.mk.injEq]
  constructor
  · exact updateGroup_idem _ hpvs _
  · rw [List.map_map]
    refine List.map_congr_left ?_
    intro g _
    simp only [Function.comp_apply]
    rw [updateGroup_idem _ hpvs]

/-- C5 counterexample: the claim predicts that a candidate interpreter
version numerically at least the reference minimum passes, naming 3.10
against 3.7.  The code compares the version strings with the string order,
under which the ten-release string sorts below the seven-release string, so
the check fails with the inconsistent-interpreter error. -/
theorem interpreter_string_compare_counterexample :
    checkInterpreter [expectedClassifier ("3.10")] ["3.7"] ["3.10"]
        = InterpreterCheck.inconsistent ∧
    checkInterpreter [expectedClassifier ("3.10")] ["3.7"] ["3.10"]
        ≠ InterpreterCheck.ok :=
  ⟨by decide, by decide⟩

/-- C5 amended: the interpreter step succeeds exactly when the expected
classifier for the candidate version is declared and the candidate version
compares greater-or-equal, under lexicographic string comparison, against
some declared reference version; otherwise it fails with one of the two
errors the specification groups under the inconsistent-interpreter kind. -/
theorem interpreter_check_ok_iff (classifiers pyReqVersions : List String)
    (v : String) (rest : List String) :
    checkInterpreter classifiers pyReqVersions (v :: rest) = InterpreterCheck.ok ↔
      expectedClassifier v ∈ classifiers ∧ ∃ o ∈ pyReqVersions, pyLtB v o = false := by
  simp only [checkInterpreter]
  split_ifs with h1 h2
  · refine iff_of_true rfl ⟨h1, ?_⟩
    obtain ⟨o, ho, hno⟩ := List.any_eq_true.mp h2
    exact ⟨o, ho, by simpa using hno⟩
  · refine iff_of_false (by simp) ?_
    rintro ⟨-, o, ho, hlt⟩
    refine h2 (List.any_eq_true.mpr ⟨o, ho, ?_⟩)
    rw [hlt]
    rfl
  · refine iff_of_false (by simp) ?_
    rintro ⟨hc, -⟩
    exact h1 hc

/-- C6 (code bug): the missing-direction half of the claim holds on the
code: erasing the candidate entry of the one reference requirement yields
exactly one missing-requirement error naming that requirement.  The
extra-direction half fails on the code: with one extraneous candidate entry
the leftover-pool branch is reached, but the branch joins the remaining
requirement objects into a message string and that join raises an uncaught
TypeError, so no ExtraRequirement error listing the remainder is ever
produced (the general behavior behind both halves is `checkInstall_erase`
and `checkInstall_insert`). -/
theorem validate_env_missing_extra_bug :
    checkInstallReqs ["six==1.12.0"] {"six==1.12.0"} = EnvValidation.consistent ∧
    checkInstallReqs ["six==1.12.0"]
        (({"six==1.12.0"} : Finset String).erase (setuptoolsToConda ("six==1.12.0")))
      = EnvValidation.missingRequirement ("six==1.12.0") ∧
    checkInstallReqs ["six==1.12.0"] (insert ("numpy==1.17.4") {"six==1.12.0"})
      = EnvValidation.joinTypeError :=
  ⟨by decide, by decide, by decide⟩

/-- C7: in any successful output of unrestrict, a requirement whose name is
outside the caller exclude set and which carries no environment marker never
retains an equality pin, in the mandatory group and in every extras
group. -/
theorem unrestrict_no_pin_survives (exclude : List String) (setup out : SetupJson)
    (h : unrestrict_requirements exclude setup = Except.ok out) :
    (∀ r ∈ out.install_requires, reqName r ∉ exclude → hasSemi r = false →
        hasEqEq r = false) ∧
    (∀ g ∈ out.extras_require, ∀ r ∈ g.2, reqName r ∉ exclude → hasSemi r = false →
        hasEqEq r = false) := by
  rcases unrestrict_ok_inversion h with rfl | ⟨hinst, hextras⟩
  · constructor
    · intro r hr _ hsemi
      obtain ⟨a, _, rfl⟩ := List.mem_map.mp hr
      exact unrestrictReq_no_pin DEFAULT_no_eqeq a hsemi
    · intro g hg r hr _ hsemi
      obtain ⟨g0, _, rfl⟩ := List.mem_map.mp hg
      obtain ⟨a, _, rfl⟩ := List.mem_map.mp hr
      exact unrestrictReq_no_pin DEFAULT_no_eqeq a hsemi
  · constructor
    · intro r hr
      rw [hinst] at hr
      exact absurd hr (List.not_mem_nil r)
    · intro g hg r hr
      rw [hextras g hg] at hr
      exact absurd hr (List.not_mem_nil r)

/-- Witness for C7 at a concrete pinned manifest. -/
theorem unrestrict_no_pin_survives_witness :
    unrestrict_requirements [] ⟨["six==1.12.0"], []⟩ = Except.ok ⟨["six"], []⟩ ∧
    hasEqEq ("six") = false :=
  ⟨rfl, (unrestrict_no_pin_survives [] ⟨["six==1.12.0"], []⟩ ⟨["six"], []⟩ rfl).1
    ("six") (by decide) (by decide) (by decide)⟩

/-- C8 counterexample: with the documentation list missing the requirement
six from the combined set, the comparison does fail, but through a bare
assertion whose message is empty: it does not name the missing
requirement. -/
theorem validate_rtd_unnamed_counterexample :
    validate_rtd_reqs ["six", "click"] [] [] [] [] ["click"] = Except.error ("") ∧
    hasSubL ("six").data ("").data = false :=
  ⟨rfl, by decide⟩

/-- C8 amended: the flat documentation-list validation succeeds exactly when
the set of requirements of the flat file equals the union of the mandatory
group and the four fixed extra groups; on a mismatch it reports a bare
assertion failure that names nothing. -/
theorem validate_rtd_ok_iff (install testing docs rest atomicTools rtdLines : List String) :
    validate_rtd_reqs install testing docs rest atomicTools rtdLines = Except.ok () ↔
      rtdLines.toFinset = rtdCombined install testing docs rest atomicTools := by
  unfold validate_rtd_reqs
  split_ifs with hcond
  · exact iff_of_true rfl hcond
  · exact iff_of_false (by simp) hcond

/-- C9: every requirement group written back by update is sorted in the
lexicographic order; the transformation is a pure function of its inputs, so
identical inputs give identical, deterministically ordered lists. -/
theorem update_groups_sorted (freezeLines : List String) (setup : SetupJson) :
    List.Sorted pyLe ((update_requirements freezeLines setup).install_requires) ∧
    List.Forall (fun g => List.Sorted pyLe g.2)
      ((update_requirements freezeLines setup).extras_require) := by
  constructor
  · exact pySortedSet_sorted _
  · rw [List.forall_iff_forall_mem]
    intro g hg
    simp only [update_requirements] at hg
    obtain ⟨g0, _, rfl⟩ := List.mem_map.mp hg
    exact pySortedSet_sorted _

/-- C10: a snapshot line that does not split into exactly one
package-version pair contributes nothing: dropping it from the snapshot
leaves the parsed pin list unchanged, and the parse never fails. -/
theorem parse_freeze_skips_malformed (pre post : List String) (line : String)
    (h : (splitEqEqL (pyStrip line).data).length ≠ 2) :
    (pre ++ line :: post).filterMap parseFreezeLine
      = (pre ++ post).filterMap parseFreezeLine := by
  have hnone : parseFreezeLine line = none := by
    unfold parseFreezeLine
    split
    · rename_i p v heq
      exact absurd (by rw [heq]; rfl) h
    · rfl
  rw [List.filterMap_append, List.filterMap_append, List.filterMap_cons_none hnone]

/-- Witness for C10 at a concrete bare-name line. -/
theorem parse_freeze_skips_malformed_witness :
    (splitEqEqL (pyStrip ("six")).data).length ≠ 2 ∧
    (["numpy==1.17.4"] ++ ("six") :: ["click==7.0"]).filterMap parseFreezeLine
      = (["numpy==1.17.4"] ++ ["click==7.0"]).filterMap parseFreezeLine :=
  ⟨by decide,
    parse_freeze_skips_malformed ["numpy==1.17.4"] ["click==7.0"] ("six") (by decide)⟩

end DepMgmt
